import Mathlib

/-!
# Verification of the Monte Carlo portfolio-optimization core

Shallow embedding of the numeric core of the repository
(`src/utils.py` and `src/portfolio_optimizer.py`) over exact rationals.
Python/numpy floating-point numbers are idealized as `ℚ`; the square root
taken by `np.std` is idealized as `Real.sqrt`, so a standard deviation is
an `ℝ` whose square is the (rational) variance.

Layout conventions follow the call sites: a price matrix is the list of
trading-day rows, each row holding one price per asset (this is the shape
of the `DataFrame['Close']` array the optimizer passes to
`calculate_portfolio_metrics`, whose `np.matmul(weights, asset_prices.T)`
therefore forms, for each day, the weighted sum of that day's asset
prices).
-/

/-- Embeds `np.diff(prices)`: consecutive differences `p[i+1] - p[i]`. -/
def np_diff (p : List ℚ) : List ℚ :=
  List.zipWith (fun a b => b - a) p p.tail

/-- Embeds the source line `returns = np.diff(prices) / prices[1:]`
(`src/utils.py:95`): elementwise quotient of the consecutive differences
by the tail of the price list, i.e. the later-price-denominator returns. -/
def dailyReturns (p : List ℚ) : List ℚ :=
  List.zipWith (fun a b => a / b) (np_diff p) p.tail

/-- Embeds `np.average(xs)` (no weights): the arithmetic mean. -/
def np_average (xs : List ℚ) : ℚ :=
  xs.sum / xs.length

/-- The square of `np.std(xs)` (ddof=0): mean of squared deviations
from the mean. Kept in `ℚ` so it is exactly computable. -/
def np_var (xs : List ℚ) : ℚ :=
  np_average (xs.map (fun x => (x - np_average xs) ^ 2))

/-- Embeds `np.std(xs)` (ddof=0) as the real square root of `np_var`. -/
noncomputable def np_std (xs : List ℚ) : ℝ :=
  Real.sqrt (np_var xs)

/-- Embeds `calculate_returns_and_risk` (`src/utils.py:84-101`):
returns `(np.average(returns), np.std(returns))` for the
later-price-denominator daily returns. -/
noncomputable def calculate_returns_and_risk (p : List ℚ) : ℚ × ℝ :=
  (np_average (dailyReturns p), np_std (dailyReturns p))

/-- Embeds `annualize_metrics` (`src/utils.py:144-159`):
multiplies both daily metrics by the trading-day count. -/
def annualize_metrics (return_rate risk : ℚ) (trade_days : ℤ) : ℚ × ℚ :=
  (return_rate * trade_days, risk * trade_days)

/-- Embeds `generate_random_portfolio_weights` (`src/utils.py:104-114`).
The library call `np.random.dirichlet(np.ones(n))` is modelled by its
defining construction: `n` positive Gamma(1) samples — supplied here as
the explicit argument `draws` — normalized by their sum. -/
def generate_random_portfolio_weights (draws : List ℚ) : List ℚ :=
  draws.map (fun g => g / draws.sum)

/-- Embeds `np.matmul(weights, asset_prices.T)` for a day-row matrix
(`src/utils.py:132`): one weighted sum of asset prices per trading day. -/
def portfolio_prices (w : List ℚ) (m : List (List ℚ)) : List ℚ :=
  m.map (fun day => (List.zipWith (fun a b => a * b) w day).sum)

/-- Embeds `calculate_portfolio_metrics` (`src/utils.py:117-141`):
the source inlines the same diff/average/std lines on the synthetic
weighted price series. -/
noncomputable def calculate_portfolio_metrics (w : List ℚ) (m : List (List ℚ)) : ℚ × ℝ :=
  (np_average (dailyReturns (portfolio_prices w m)),
   np_std (dailyReturns (portfolio_prices w m)))

/-! ## Spec-side definitions (for the refinement claims)

These follow the wording of the specification, to be compared with the
definitions above that were translated from the source. -/

/-- Spec wording (§4.1): `r[i] = (p[i+1] - p[i]) / p[i+1]` for
`i = 0..L-2`. -/
def specReturns (p : List ℚ) : List ℚ :=
  (List.range (p.length - 1)).map
    (fun i => (p.getD (i + 1) 0 - p.getD i 0) / p.getD (i + 1) 0)

/-- Spec wording (§4.1): arithmetic mean. -/
def specMean (xs : List ℚ) : ℚ :=
  xs.sum / xs.length

/-- Square of the spec's population standard deviation: sum of squared
deviations divided by the number of values (divisor `L-1` over the `L-1`
returns, i.e. ddof=0). -/
def specPopVar (xs : List ℚ) : ℚ :=
  (xs.map (fun x => (x - specMean xs) ^ 2)).sum / xs.length

/-- Spec wording (§4.1): population standard deviation (ddof=0). -/
noncomputable def specPopStd (xs : List ℚ) : ℝ :=
  Real.sqrt (specPopVar xs)

/-- Spec wording (§4.3): the derived series whose day-`d` price is the
weighted sum over assets of `w[a] * price[a][d]`; with the day-row
layout, `price[a][d]` is entry `a` of day-row `d`. -/
def specPortfolioSeries (w : List ℚ) (m : List (List ℚ)) : List ℚ :=
  m.map (fun day => (Finset.range w.length).sum (fun a => w.getD a 0 * day.getD a 0))

/-! ## Optimal selector -/

/-- Embeds `np.where(portfolio_array[:, 1] <= max_risk)[0]`
(`src/utils.py:179`): the indices, in increasing order, of the records
whose risk is at most `max_risk`. A record is a `(return, risk)` pair. -/
def acceptable_indices (recs : List (ℚ × ℚ)) (max_risk : ℚ) : List ℕ :=
  (List.range recs.length).filter (fun i => decide ((recs.getD i (0, 0)).2 ≤ max_risk))

/-- Embeds `np.where(portfolio_array[:, 1] == min_risk)[0]`
(`src/utils.py:189`): the indices of the records whose risk equals
`min_risk` exactly. -/
def min_risk_indices (recs : List (ℚ × ℚ)) (min_risk : ℚ) : List ℕ :=
  (List.range recs.length).filter (fun i => decide ((recs.getD i (0, 0)).2 = min_risk))

/-- Embeds `np.argmax`: index of the first occurrence of the maximum;
`none` on an empty list, where `np.argmax` raises `ValueError`. -/
def argmax_idx : List ℚ → Option ℕ
  | [] => none
  | x :: xs =>
    match argmax_idx xs with
    | none => some 0
    | some j => if x < xs.getD j 0 then some (j + 1) else some 0

/-- Embeds the selection block shared verbatim by both branches of
`find_optimal_portfolio` (`src/utils.py:183-186` and `190-193`):
`candidate_portfolios` is the list of records at the given indices,
`best_idx` the argmax of their returns; the chosen record and its index
in the original array are reported. -/
def select_best (recs : List (ℚ × ℚ)) (idxs : List ℕ) : Option ((ℚ × ℚ) × ℕ) :=
  match argmax_idx ((idxs.map (fun i => recs.getD i (0, 0))).map Prod.fst) with
  | none => none
  | some b => some ((idxs.map (fun i => recs.getD i (0, 0))).getD b (0, 0), idxs.getD b 0)

/-- Embeds `find_optimal_portfolio` (`src/utils.py:162-195`): if strictly
more than one record is acceptable, select among the acceptable ones,
otherwise select among the records whose risk equals `min_risk`. `none`
stands for the `ValueError` raised by `np.argmax` on an empty set. -/
def find_optimal_pf (recs : List (ℚ × ℚ)) (max_risk min_risk : ℚ) :
    Option ((ℚ × ℚ) × ℕ) :=
  if 1 < (acceptable_indices recs max_risk).length then
    select_best recs (acceptable_indices recs max_risk)
  else
    select_best recs (min_risk_indices recs min_risk)


/-! ## Scenario engine -/

/-- Embeds the Monte Carlo loop of `PortfolioOptimizer.simulate_portfolios`
(`src/portfolio_optimizer.py:130-145`): iteration `i` draws the weight
vector `draws i` (the seeded random stream is modelled as an explicit
function from the iteration counter to the drawn weights), evaluates it
with `calculate_portfolio_metrics`, and appends the return, the risk and
the weights to the three result vectors. -/
noncomputable def simulate_loop (draws : ℕ → List ℚ) (m : List (List ℚ)) :
    ℕ → List ℚ × List ℝ × List (List ℚ)
  | 0 => ([], [], [])
  | k + 1 =>
    ((simulate_loop draws m k).1 ++ [(calculate_portfolio_metrics (draws k) m).1],
     (simulate_loop draws m k).2.1 ++ [(calculate_portfolio_metrics (draws k) m).2],
     (simulate_loop draws m k).2.2 ++ [draws k])

/-- Embeds `PortfolioOptimizer.simulate_portfolios`
(`src/portfolio_optimizer.py:117-154`): the return and risk vectors are
seeded with the benchmark metrics at position 0, the weight vector starts
empty, and the loop appends `K` scenarios in order. -/
noncomputable def simulate_portfolios (benchmark_return : ℚ) (benchmark_risk : ℝ)
    (draws : ℕ → List ℚ) (m : List (List ℚ)) (K : ℕ) :
    List ℚ × List ℝ × List (List ℚ) :=
  (benchmark_return :: (simulate_loop draws m K).1,
   benchmark_risk :: (simulate_loop draws m K).2.1,
   (simulate_loop draws m K).2.2)

/-! ## Estimator lemmas -/

lemma zipWith_div_sub (p q : List ℚ) :
    List.zipWith (fun a b => a / b) (List.zipWith (fun a b => b - a) p q) q =
      List.zipWith (fun a b => (b - a) / b) p q := by
  induction p generalizing q with
  | nil => simp
  | cons x xs ih =>
    cases q with
    | nil => simp
    | cons y ys => simp [List.zipWith, ih]

lemma zipWith_tail_eq (f : ℚ → ℚ → ℚ) :
    ∀ p : List ℚ,
      List.zipWith f p p.tail =
        (List.range (p.length - 1)).map (fun i => f (p.getD i 0) (p.getD (i + 1) 0))
  | [] => rfl
  | [_] => rfl
  | a :: b :: r => by
    have ih := zipWith_tail_eq f (b :: r)
    simp only [List.zipWith, List.tail] at ih ⊢
    have hlen : (a :: b :: r).length - 1 = r.length + 1 := by simp
    rw [hlen, List.range_succ_eq_map, List.map_cons, List.map_map]
    simp only [List.length_cons, Nat.add_sub_cancel] at ih
    rw [ih]
    simp [Function.comp, List.getD]

/-- The source's `np.diff / prices[1:]` computes exactly the spec's
indexed formula for the per-step returns. -/
lemma dailyReturns_eq_specReturns (p : List ℚ) : dailyReturns p = specReturns p := by
  rw [dailyReturns, np_diff, zipWith_div_sub, specReturns,
    zipWith_tail_eq (fun a b => (b - a) / b) p]

lemma np_average_eq_specMean (xs : List ℚ) : np_average xs = specMean xs := rfl

lemma np_var_eq_specPopVar (xs : List ℚ) : np_var xs = specPopVar xs := by
  unfold np_var specPopVar np_average specMean
  rw [List.length_map]

/-- C8: `annualize_metrics(r, s, d)` is pure linear scaling: it returns
exactly `(r * d, s * d)` for every daily return `r`, daily risk `s` and
trading-day count `d > 0` — no clamping and no compounding. -/
theorem annualize_metrics_linear (r s : ℚ) (d : ℤ) (hd : 0 < d) :
    annualize_metrics r s d = (r * d, s * d) := rfl

theorem annualize_metrics_linear_witness :
    0 < (252 : ℤ) ∧ annualize_metrics 1 2 252 = (1 * 252, 2 * 252) :=
  ⟨by decide, annualize_metrics_linear 1 2 252 (by decide)⟩

/-- C2: for every price list of length at least 2 with all prices
positive, `calculate_returns_and_risk` returns the arithmetic mean and
the population (ddof=0) standard deviation of the spec's per-step
returns `r[i] = (p[i+1] - p[i]) / p[i+1]` — the denominator is the later
price `p[i+1]`, not the earlier one. -/
theorem calculate_returns_and_risk_spec (p : List ℚ) (hlen : 2 ≤ p.length)
    (hpos : ∀ x ∈ p, 0 < x) :
    calculate_returns_and_risk p =
      (specMean (specReturns p), specPopStd (specReturns p)) := by
  unfold calculate_returns_and_risk np_std specPopStd
  rw [dailyReturns_eq_specReturns, np_average_eq_specMean, np_var_eq_specPopVar]

theorem calculate_returns_and_risk_spec_witness :
    (2 ≤ ([1, 2] : List ℚ).length ∧ ∀ x ∈ ([1, 2] : List ℚ), 0 < x) ∧
      calculate_returns_and_risk [1, 2] =
        (specMean (specReturns [1, 2]), specPopStd (specReturns [1, 2])) :=
  ⟨⟨by decide, by norm_num⟩,
    calculate_returns_and_risk_spec [1, 2] (by decide) (by norm_num)⟩

/-- C3 counterexample: on the price list `[100, 105, 102, 108, 110]` the
first per-step return computed by the code is `(105 - 100) / 105 = 1/21
= 0.047619...`, not `0.05` as the claim lists, and the discrepancy
exceeds the claimed `1e-6` tolerance. -/
theorem first_return_of_sample_series :
    (dailyReturns [100, 105, 102, 108, 110]).getD 0 0 = 1 / 21 ∧
      ¬ |(dailyReturns [100, 105, 102, 108, 110]).getD 0 0 - 5 / 100| ≤ 1 / 1000000 := by
  have h : dailyReturns [100, 105, 102, 108, 110] =
      [1 / 21, -1 / 34, 1 / 18, 1 / 55] := by
    norm_num [dailyReturns, np_diff]
  refine ⟨by rw [h]; rfl, ?_⟩
  rw [h]
  simp only [List.getD_cons_zero]
  rw [show (1 : ℚ) / 21 - 5 / 100 = -(1 / 420) by norm_num, abs_neg,
    abs_of_pos (by norm_num : (0 : ℚ) < 1 / 420)]
  norm_num

/-- C3 amended: on `[100, 105, 102, 108, 110]` the per-step returns are
`[1/21, -1/34, 1/18, 1/55] ≈ [0.047619, -0.029411, 0.055555, 0.018181]`
(the first value is `0.047619...`, not `0.05`), and the estimator's
output equals the mean and population standard deviation of these four
values exactly — in particular to within `1e-6`. -/
theorem returns_and_metrics_of_sample_series :
    dailyReturns [100, 105, 102, 108, 110] = [1 / 21, -1 / 34, 1 / 18, 1 / 55] ∧
      calculate_returns_and_risk [100, 105, 102, 108, 110] =
        (specMean [1 / 21, -1 / 34, 1 / 18, 1 / 55],
         specPopStd [1 / 21, -1 / 34, 1 / 18, 1 / 55]) := by
  have h : dailyReturns [100, 105, 102, 108, 110] =
      [1 / 21, -1 / 34, 1 / 18, 1 / 55] := by
    norm_num [dailyReturns, np_diff]
  refine ⟨h, ?_⟩
  unfold calculate_returns_and_risk np_std specPopStd
  rw [h, np_average_eq_specMean, np_var_eq_specPopVar]

/-! ## Portfolio metric evaluator -/

lemma zipWith_mul_sum_eq (w : List ℚ) :
    ∀ day : List ℚ, day.length = w.length →
      (List.zipWith (fun a b => a * b) w day).sum =
        (Finset.range w.length).sum (fun a => w.getD a 0 * day.getD a 0) := by
  induction w with
  | nil => intro day h; simp
  | cons x xs ih =>
    intro day h
    cases day with
    | nil => simp at h
    | cons y ys =>
      simp only [List.length_cons, Nat.add_right_cancel_iff] at h
      rw [List.zipWith_cons_cons, List.sum_cons, ih ys h, List.length_cons,
        Finset.sum_range_succ']
      simp only [List.getD_cons_succ, List.getD_cons_zero]
      exact add_comm _ _

lemma portfolio_prices_eq_spec (w : List ℚ) (m : List (List ℚ))
    (hdim : ∀ row ∈ m, row.length = w.length) :
    portfolio_prices w m = specPortfolioSeries w m := by
  unfold portfolio_prices specPortfolioSeries
  exact List.map_congr_left (fun day hday => zipWith_mul_sum_eq w day (hdim day hday))

/-- C5: for weights `w` and an aligned price matrix (each day-row has
one entry per weight), `calculate_portfolio_metrics` equals
`calculate_returns_and_risk` applied to the derived series whose
day-`d` price is the weighted sum over assets of `w[a] * price[a][d]`:
the evaluator is exactly the composition of the weighted-sum synthesis
and the return/risk estimator, non-standard return convention included. -/
theorem calculate_portfolio_metrics_is_composition (w : List ℚ) (m : List (List ℚ))
    (hdim : ∀ row ∈ m, row.length = w.length) :
    calculate_portfolio_metrics w m =
      calculate_returns_and_risk (specPortfolioSeries w m) := by
  unfold calculate_portfolio_metrics calculate_returns_and_risk
  rw [portfolio_prices_eq_spec w m hdim]

theorem calculate_portfolio_metrics_is_composition_witness :
    (∀ row ∈ ([[100, 200], [105, 210]] : List (List ℚ)),
        row.length = ([1 / 2, 1 / 2] : List ℚ).length) ∧
      calculate_portfolio_metrics [1 / 2, 1 / 2] [[100, 200], [105, 210]] =
        calculate_returns_and_risk
          (specPortfolioSeries [1 / 2, 1 / 2] [[100, 200], [105, 210]]) :=
  ⟨by simp, calculate_portfolio_metrics_is_composition _ _ (by simp)⟩

/-! ## Weight sampler -/

lemma sum_map_div (l : List ℚ) (c : ℚ) :
    (l.map (fun x => x / c)).sum = l.sum / c := by
  induction l with
  | nil => simp
  | cons x xs ih => simp [ih, add_div]

/-- C9: for every asset count `n ≥ 1` and every vector of `n` positive
Gamma draws, the normalized weight vector produced by
`generate_random_portfolio_weights` has length exactly `n`, every
component nonnegative, and components summing to 1 within `1e-9`
(in exact arithmetic the sum is exactly 1). -/
theorem generate_random_portfolio_weights_simplex (n : ℕ) (hn : 1 ≤ n)
    (draws : List ℚ) (hlen : draws.length = n) (hpos : ∀ x ∈ draws, 0 < x) :
    (generate_random_portfolio_weights draws).length = n ∧
      (∀ x ∈ generate_random_portfolio_weights draws, 0 ≤ x) ∧
      |(generate_random_portfolio_weights draws).sum - 1| ≤ 1 / 1000000000 := by
  have hne : draws ≠ [] := by
    intro h
    rw [h] at hlen
    simp at hlen
    omega
  have hs : 0 < draws.sum := List.sum_pos draws hpos hne
  refine ⟨?_, ?_, ?_⟩
  · rw [generate_random_portfolio_weights, List.length_map, hlen]
  · intro x hx
    rw [generate_random_portfolio_weights, List.mem_map] at hx
    obtain ⟨g, hg, rfl⟩ := hx
    exact div_nonneg (hpos g hg).le hs.le
  · rw [generate_random_portfolio_weights, sum_map_div, div_self hs.ne']
    norm_num

theorem generate_random_portfolio_weights_simplex_witness :
    (1 ≤ 2 ∧ ([1, 3] : List ℚ).length = 2 ∧ ∀ x ∈ ([1, 3] : List ℚ), 0 < x) ∧
      ((generate_random_portfolio_weights [1, 3]).length = 2 ∧
        (∀ x ∈ generate_random_portfolio_weights [1, 3], 0 ≤ x) ∧
        |(generate_random_portfolio_weights [1, 3]).sum - 1| ≤ 1 / 1000000000) :=
  ⟨⟨by decide, by decide, by norm_num⟩,
    generate_random_portfolio_weights_simplex 2 (by decide) [1, 3] (by decide) (by norm_num)⟩

/-! ## Argmax lemmas -/

lemma argmax_idx_eq_none_iff : ∀ xs : List ℚ, argmax_idx xs = none ↔ xs = []
  | [] => by simp [argmax_idx]
  | x :: xs => by
    simp only [argmax_idx]
    cases h : argmax_idx xs with
    | none => simp
    | some j =>
      by_cases hx : x < xs.getD j 0
      · simp only [if_pos hx]
        simp
      · simp only [if_neg hx]
        simp

lemma argmax_idx_lt_length :
    ∀ (xs : List ℚ) (j : ℕ), argmax_idx xs = some j → j < xs.length
  | [], j => by simp [argmax_idx]
  | x :: xs, j => by
    have hrec := argmax_idx_lt_length xs
    simp only [argmax_idx]
    cases h : argmax_idx xs with
    | none =>
      intro he
      simp only [Option.some.injEq] at he
      subst he
      simp
    | some i =>
      have hi := hrec i h
      by_cases hx : x < xs.getD i 0
      · simp only [if_pos hx, Option.some.injEq]
        intro he
        subst he
        simp only [List.length_cons]
        omega
      · simp only [if_neg hx, Option.some.injEq]
        intro he
        subst he
        simp

lemma argmax_idx_is_max :
    ∀ (xs : List ℚ) (j : ℕ), argmax_idx xs = some j →
      ∀ k, k < xs.length → xs.getD k 0 ≤ xs.getD j 0
  | [], j => by simp [argmax_idx]
  | x :: xs, j => by
    have hrec := argmax_idx_is_max xs
    simp only [argmax_idx]
    cases h : argmax_idx xs with
    | none =>
      have hnil : xs = [] := (argmax_idx_eq_none_iff xs).mp h
      subst hnil
      intro he
      simp only [Option.some.injEq] at he
      subst he
      intro k hk
      have : k = 0 := by simpa using Nat.lt_one_iff.mp (by simpa using hk)
      subst this
      exact le_refl _
    | some i =>
      have hmax := hrec i h
      by_cases hx : x < xs.getD i 0
      · simp only [if_pos hx, Option.some.injEq]
        intro he
        subst he
        intro k hk
        cases k with
        | zero => simpa using hx.le
        | succ k =>
          have hk2 : k < xs.length := by simpa using hk
          simpa using hmax k hk2
      · simp only [if_neg hx, Option.some.injEq]
        intro he
        subst he
        intro k hk
        have hxi : xs.getD i 0 ≤ x := le_of_not_lt hx
        cases k with
        | zero => simp
        | succ k =>
          have hk2 : k < xs.length := by simpa using hk
          have hle := hmax k hk2
          simp only [List.getD_cons_succ, List.getD_cons_zero]
          exact le_trans hle hxi

/-! ## Selection lemmas -/

lemma getD_mem_of_lt (l : List (ℚ × ℚ)) (k : ℕ) (h : k < l.length) :
    l.getD k (0, 0) ∈ l := by
  rw [List.getD_eq_getElem l (0, 0) h]
  exact List.getElem_mem h

lemma exists_index_of_mem (l : List (ℚ × ℚ)) (s : ℚ × ℚ) (hs : s ∈ l) :
    ∃ k, k < l.length ∧ l.getD k (0, 0) = s := by
  obtain ⟨n, hn, he⟩ := List.mem_iff_getElem.mp hs
  exact ⟨n, hn, by rw [List.getD_eq_getElem l (0, 0) hn]; exact he⟩

lemma mem_acceptable_indices (recs : List (ℚ × ℚ)) (max_risk : ℚ) (k : ℕ) :
    k ∈ acceptable_indices recs max_risk ↔
      k < recs.length ∧ (recs.getD k (0, 0)).2 ≤ max_risk := by
  simp [acceptable_indices, List.mem_filter, List.mem_range]

lemma mem_min_risk_indices (recs : List (ℚ × ℚ)) (min_risk : ℚ) (k : ℕ) :
    k ∈ min_risk_indices recs min_risk ↔
      k < recs.length ∧ (recs.getD k (0, 0)).2 = min_risk := by
  simp [min_risk_indices, List.mem_filter, List.mem_range]

lemma map_getD (idxs : List ℕ) (recs : List (ℚ × ℚ)) (n : ℕ) (hn : n < idxs.length) :
    (idxs.map (fun i => recs.getD i (0, 0))).getD n (0, 0) =
      recs.getD (idxs.getD n 0) (0, 0) := by
  have h2 : n < (idxs.map (fun i => recs.getD i (0, 0))).length := by simpa using hn
  rw [List.getD_eq_getElem _ _ h2, List.getElem_map, List.getD_eq_getElem _ _ hn]

lemma map_map_getD (idxs : List ℕ) (recs : List (ℚ × ℚ)) (n : ℕ) (hn : n < idxs.length) :
    ((idxs.map (fun i => recs.getD i (0, 0))).map Prod.fst).getD n 0 =
      (recs.getD (idxs.getD n 0) (0, 0)).1 := by
  have h1 : n < ((idxs.map (fun i => recs.getD i (0, 0))).map Prod.fst).length := by
    simpa using hn
  rw [List.getD_eq_getElem _ _ h1, List.getElem_map, List.getElem_map,
    List.getD_eq_getElem _ _ hn]

lemma select_best_some_of_ne_nil (recs : List (ℚ × ℚ)) (idxs : List ℕ)
    (h : idxs ≠ []) : ∃ r i, select_best recs idxs = some (r, i) := by
  unfold select_best
  cases hb : argmax_idx ((idxs.map (fun i => recs.getD i (0, 0))).map Prod.fst) with
  | none =>
    have hnil := (argmax_idx_eq_none_iff _).mp hb
    simp at hnil
    exact absurd hnil h
  | some b => exact ⟨_, _, rfl⟩

lemma select_best_spec (recs : List (ℚ × ℚ)) (idxs : List ℕ) (r : ℚ × ℚ) (i : ℕ)
    (h : select_best recs idxs = some (r, i)) :
    i ∈ idxs ∧ recs.getD i (0, 0) = r ∧
      ∀ k ∈ idxs, (recs.getD k (0, 0)).1 ≤ r.1 := by
  unfold select_best at h
  split at h
  next => simp at h
  next b hb =>
    simp only [Option.some.injEq, Prod.mk.injEq] at h
    obtain ⟨hr, hi⟩ := h
    have hbl := argmax_idx_lt_length _ b hb
    have hbi : b < idxs.length := by simpa using hbl
    have hmem : i ∈ idxs := by
      rw [← hi, List.getD_eq_getElem _ _ hbi]
      exact List.getElem_mem hbi
    have hrec : recs.getD i (0, 0) = r := by
      rw [← hi, ← hr, map_getD idxs recs b hbi]
    refine ⟨hmem, hrec, ?_⟩
    intro k hk
    obtain ⟨n, hn, hnk⟩ := List.mem_iff_getElem.mp hk
    have hmax := argmax_idx_is_max _ b hb n (by simpa using hn)
    rw [map_map_getD idxs recs n hn, map_map_getD idxs recs b hbi] at hmax
    have hkn : idxs.getD n 0 = k := by
      rw [List.getD_eq_getElem _ _ hn]
      exact hnk
    rw [hkn] at hmax
    have hbr : (recs.getD (idxs.getD b 0) (0, 0)).1 = r.1 := by
      rw [← hr, map_getD idxs recs b hbi]
    rw [hbr] at hmax
    exact hmax

/-- C1: for a non-empty record list and any `max_risk` and `min_risk`:
if strictly more than one record has risk ≤ `max_risk`, the selector
returns a maximum-return record among those acceptable records;
otherwise — including when exactly one record is acceptable, which is
then discarded — it returns a maximum-return record among the records
whose risk is exactly `min_risk` (whenever such a record exists; with
none, `np.argmax` raises on the empty candidate set). -/
theorem find_optimal_pf_two_tier (recs : List (ℚ × ℚ)) (max_risk min_risk : ℚ)
    (hne : recs ≠ []) :
    (1 < (acceptable_indices recs max_risk).length →
      ∃ r i, find_optimal_pf recs max_risk min_risk = some (r, i) ∧
        r ∈ recs ∧ r.2 ≤ max_risk ∧
        ∀ s ∈ recs, s.2 ≤ max_risk → s.1 ≤ r.1) ∧
    (¬ 1 < (acceptable_indices recs max_risk).length →
      (∃ s ∈ recs, s.2 = min_risk) →
      ∃ r i, find_optimal_pf recs max_risk min_risk = some (r, i) ∧
        r ∈ recs ∧ r.2 = min_risk ∧
        ∀ s ∈ recs, s.2 = min_risk → s.1 ≤ r.1) := by
  constructor
  · intro hgt
    have hnn : acceptable_indices recs max_risk ≠ [] := by
      intro hnil
      rw [hnil] at hgt
      simp at hgt
    obtain ⟨r, i, hsel⟩ := select_best_some_of_ne_nil recs _ hnn
    obtain ⟨hmem, hrec, hmax⟩ := select_best_spec recs _ r i hsel
    have hfind : find_optimal_pf recs max_risk min_risk = some (r, i) := by
      rw [find_optimal_pf, if_pos hgt]
      exact hsel
    have hi := (mem_acceptable_indices recs max_risk i).mp hmem
    refine ⟨r, i, hfind, ?_, ?_, ?_⟩
    · rw [← hrec]
      exact getD_mem_of_lt recs i hi.1
    · rw [← hrec]
      exact hi.2
    · intro s hs hsr
      obtain ⟨k, hk, hks⟩ := exists_index_of_mem recs s hs
      have hkacc : k ∈ acceptable_indices recs max_risk :=
        (mem_acceptable_indices recs max_risk k).mpr ⟨hk, by rw [hks]; exact hsr⟩
      have hle := hmax k hkacc
      rw [hks] at hle
      exact hle
  · intro hle hex
    obtain ⟨s, hs, hsr⟩ := hex
    obtain ⟨k0, hk0, hk0s⟩ := exists_index_of_mem recs s hs
    have hk0m : k0 ∈ min_risk_indices recs min_risk :=
      (mem_min_risk_indices recs min_risk k0).mpr ⟨hk0, by rw [hk0s]; exact hsr⟩
    have hnn : min_risk_indices recs min_risk ≠ [] := List.ne_nil_of_mem hk0m
    obtain ⟨r, i, hsel⟩ := select_best_some_of_ne_nil recs _ hnn
    obtain ⟨hmem, hrec, hmax⟩ := select_best_spec recs _ r i hsel
    have hfind : find_optimal_pf recs max_risk min_risk = some (r, i) := by
      rw [find_optimal_pf, if_neg hle]
      exact hsel
    have hi := (mem_min_risk_indices recs min_risk i).mp hmem
    refine ⟨r, i, hfind, ?_, ?_, ?_⟩
    · rw [← hrec]
      exact getD_mem_of_lt recs i hi.1
    · rw [← hrec]
      exact hi.2
    · intro t ht htr
      obtain ⟨k, hk, hkt⟩ := exists_index_of_mem recs t ht
      have hkm : k ∈ min_risk_indices recs min_risk :=
        (mem_min_risk_indices recs min_risk k).mpr ⟨hk, by rw [hkt]; exact htr⟩
      have hlt := hmax k hkm
      rw [hkt] at hlt
      exact hlt

theorem find_optimal_pf_two_tier_witness :
    (1 < (acceptable_indices
        [(1/10, 1/20), (2/25, 3/100), (3/25, 2/25), (3/50, 1/25)] (3/50)).length →
      ∃ r i, find_optimal_pf
          [(1/10, 1/20), (2/25, 3/100), (3/25, 2/25), (3/50, 1/25)]
          (3/50) (3/100) = some (r, i) ∧
        r ∈ ([(1/10, 1/20), (2/25, 3/100), (3/25, 2/25), (3/50, 1/25)] : List (ℚ × ℚ)) ∧
        r.2 ≤ 3/50 ∧
        ∀ s ∈ ([(1/10, 1/20), (2/25, 3/100), (3/25, 2/25), (3/50, 1/25)] : List (ℚ × ℚ)),
          s.2 ≤ 3/50 → s.1 ≤ r.1) ∧
    (¬ 1 < (acceptable_indices
        [(1/10, 1/20), (2/25, 3/100), (3/25, 2/25), (3/50, 1/25)] (3/50)).length →
      (∃ s ∈ ([(1/10, 1/20), (2/25, 3/100), (3/25, 2/25), (3/50, 1/25)] : List (ℚ × ℚ)),
        s.2 = 3/100) →
      ∃ r i, find_optimal_pf
          [(1/10, 1/20), (2/25, 3/100), (3/25, 2/25), (3/50, 1/25)]
          (3/50) (3/100) = some (r, i) ∧
        r ∈ ([(1/10, 1/20), (2/25, 3/100), (3/25, 2/25), (3/50, 1/25)] : List (ℚ × ℚ)) ∧
        r.2 = 3/100 ∧
        ∀ s ∈ ([(1/10, 1/20), (2/25, 3/100), (3/25, 2/25), (3/50, 1/25)] : List (ℚ × ℚ)),
          s.2 = 3/100 → s.1 ≤ r.1) :=
  find_optimal_pf_two_tier
    [(1/10, 1/20), (2/25, 3/100), (3/25, 2/25), (3/50, 1/25)] (3/50) (3/100) (by simp)

/-- C6: under the caller's precondition that `min_risk` equals the
minimum risk over the records (`src/portfolio_optimizer.py:167`), the
selector fails (returns `none`, the embedded `ValueError`) if and only
if the record list is empty: for a non-empty list the fallback
min-risk-equality candidate set is non-empty, so selection succeeds. -/
theorem find_optimal_pf_none_iff (recs : List (ℚ × ℚ)) (max_risk min_risk : ℚ)
    (hmin : recs ≠ [] →
      (∃ s ∈ recs, s.2 = min_risk) ∧ ∀ s ∈ recs, min_risk ≤ s.2) :
    (find_optimal_pf recs max_risk min_risk = none ↔ recs = []) := by
  constructor
  · intro hnone
    by_contra hne
    obtain ⟨⟨s, hs, hsr⟩, -⟩ := hmin hne
    by_cases hgt : 1 < (acceptable_indices recs max_risk).length
    · have hnn : acceptable_indices recs max_risk ≠ [] := by
        intro hnil
        rw [hnil] at hgt
        simp at hgt
      obtain ⟨r, i, hsel⟩ := select_best_some_of_ne_nil recs _ hnn
      rw [find_optimal_pf, if_pos hgt, hsel] at hnone
      exact Option.noConfusion hnone
    · obtain ⟨k0, hk0, hk0s⟩ := exists_index_of_mem recs s hs
      have hk0m : k0 ∈ min_risk_indices recs min_risk :=
        (mem_min_risk_indices recs min_risk k0).mpr ⟨hk0, by rw [hk0s]; exact hsr⟩
      obtain ⟨r, i, hsel⟩ :=
        select_best_some_of_ne_nil recs _ (List.ne_nil_of_mem hk0m)
      rw [find_optimal_pf, if_neg hgt, hsel] at hnone
      exact Option.noConfusion hnone
  · intro hnil
    subst hnil
    rfl

theorem find_optimal_pf_none_iff_witness :
    find_optimal_pf [(1, 2)] 0 2 = none ↔ [(1, 2)] = ([] : List (ℚ × ℚ)) :=
  find_optimal_pf_none_iff [(1, 2)] 0 2 (by
    intro _
    constructor
    · exact ⟨(1, 2), by simp, rfl⟩
    · intro s hs
      simp only [List.mem_singleton] at hs
      subst hs
      exact le_refl _)

/-- C10: whenever `find_optimal_portfolio` succeeds, the returned index
is a valid position in the record array and the returned best-portfolio
pair is exactly the record stored at that index — so the caller's
pairing of the index with the equally-indexed weights vector
(`src/portfolio_optimizer.py:177`) refers to the same scenario. -/
theorem find_optimal_pf_index_consistent (recs : List (ℚ × ℚ))
    (max_risk min_risk : ℚ) (r : ℚ × ℚ) (i : ℕ)
    (h : find_optimal_pf recs max_risk min_risk = some (r, i)) :
    i < recs.length ∧ recs.getD i (0, 0) = r := by
  rw [find_optimal_pf] at h
  by_cases hgt : 1 < (acceptable_indices recs max_risk).length
  · rw [if_pos hgt] at h
    obtain ⟨hmem, hrec, -⟩ := select_best_spec recs _ r i h
    exact ⟨((mem_acceptable_indices recs max_risk i).mp hmem).1, hrec⟩
  · rw [if_neg hgt] at h
    obtain ⟨hmem, hrec, -⟩ := select_best_spec recs _ r i h
    exact ⟨((mem_min_risk_indices recs min_risk i).mp hmem).1, hrec⟩

theorem find_optimal_pf_index_consistent_witness :
    ∃ r i, find_optimal_pf [(1, 2)] 0 2 = some (r, i) ∧
      i < ([(1, 2)] : List (ℚ × ℚ)).length ∧
      ([(1, 2)] : List (ℚ × ℚ)).getD i (0, 0) = r := by
  have hgt : ¬ 1 < (acceptable_indices [(1, 2)] 0).length := by
    have hle : (acceptable_indices [(1, 2)] 0).length ≤ 1 := by
      rw [acceptable_indices]
      calc (((List.range ([(1, 2)] : List (ℚ × ℚ)).length)).filter
            (fun i => decide ((([(1, 2)] : List (ℚ × ℚ)).getD i (0, 0)).2 ≤ 0))).length
          ≤ (List.range ([(1, 2)] : List (ℚ × ℚ)).length).length :=
            List.length_filter_le _ _
        _ = 1 := by simp
    omega
  have h0 : 0 ∈ min_risk_indices [(1, 2)] 2 :=
    (mem_min_risk_indices [(1, 2)] 2 0).mpr ⟨by simp, rfl⟩
  obtain ⟨r, i, hsel⟩ :=
    select_best_some_of_ne_nil [(1, 2)] _ (List.ne_nil_of_mem h0)
  have hfind : find_optimal_pf [(1, 2)] 0 2 = some (r, i) := by
    rw [find_optimal_pf, if_neg hgt]
    exact hsel
  obtain ⟨h1, h2⟩ := find_optimal_pf_index_consistent [(1, 2)] 0 2 r i hfind
  exact ⟨r, i, hfind, h1, h2⟩

/-! ## Scenario engine lemmas -/

lemma simulate_loop_eq (draws : ℕ → List ℚ) (m : List (List ℚ)) :
    ∀ k, simulate_loop draws m k =
      ((List.range k).map (fun i => (calculate_portfolio_metrics (draws i) m).1),
       (List.range k).map (fun i => (calculate_portfolio_metrics (draws i) m).2),
       (List.range k).map draws)
  | 0 => by simp [simulate_loop]
  | k + 1 => by
    rw [simulate_loop, simulate_loop_eq draws m k]
    simp [List.range_succ]

lemma getD_map_range {α : Type} (f : ℕ → α) (d : α) (K i : ℕ) (h : i < K) :
    ((List.range K).map f).getD i d = f i := by
  have h1 : i < ((List.range K).map f).length := by simpa using h
  rw [List.getD_eq_getElem _ _ h1, List.getElem_map, List.getElem_range]

/-- C7: for every scenario count `K ≥ 1`, the engine produces exactly
`K + 1` entries in each metric vector and exactly `K` weight vectors;
the benchmark metrics sit at index 0 with no weights attached, and
scenario `i` (for `i = 0..K-1`) appears in order at position `i + 1`
as the evaluator's metrics for the freshly drawn weights `draws i`,
which are stored at position `i` of the weight vector. -/
theorem simulate_portfolios_population (benchmark_return : ℚ) (benchmark_risk : ℝ)
    (draws : ℕ → List ℚ) (m : List (List ℚ)) (K : ℕ) (hK : 1 ≤ K) :
    (simulate_portfolios benchmark_return benchmark_risk draws m K).1.length = K + 1 ∧
    (simulate_portfolios benchmark_return benchmark_risk draws m K).2.1.length = K + 1 ∧
    (simulate_portfolios benchmark_return benchmark_risk draws m K).2.2.length = K ∧
    (simulate_portfolios benchmark_return benchmark_risk draws m K).1.getD 0 0
      = benchmark_return ∧
    (simulate_portfolios benchmark_return benchmark_risk draws m K).2.1.getD 0 0
      = benchmark_risk ∧
    ∀ i, i < K →
      (simulate_portfolios benchmark_return benchmark_risk draws m K).1.getD (i + 1) 0
          = (calculate_portfolio_metrics (draws i) m).1 ∧
        (simulate_portfolios benchmark_return benchmark_risk draws m K).2.1.getD (i + 1) 0
          = (calculate_portfolio_metrics (draws i) m).2 ∧
        (simulate_portfolios benchmark_return benchmark_risk draws m K).2.2.getD i []
          = draws i := by
  rw [simulate_portfolios, simulate_loop_eq draws m K]
  refine ⟨by simp, by simp, by simp, rfl, rfl, ?_⟩
  intro i hi
  refine ⟨?_, ?_, ?_⟩
  · rw [List.getD_cons_succ, getD_map_range _ _ K i hi]
  · rw [List.getD_cons_succ, getD_map_range _ _ K i hi]
  · rw [getD_map_range _ _ K i hi]

theorem simulate_portfolios_population_witness :
    (simulate_portfolios 0 0 (fun _ => [1]) [[1]] 1).1.length = 1 + 1 ∧
    (simulate_portfolios 0 0 (fun _ => [1]) [[1]] 1).2.1.length = 1 + 1 ∧
    (simulate_portfolios 0 0 (fun _ => [1]) [[1]] 1).2.2.length = 1 ∧
    (simulate_portfolios 0 0 (fun _ => [1]) [[1]] 1).1.getD 0 0 = 0 ∧
    (simulate_portfolios 0 0 (fun _ => [1]) [[1]] 1).2.1.getD 0 0 = 0 ∧
    ∀ i, i < 1 →
      (simulate_portfolios 0 0 (fun _ => [1]) [[1]] 1).1.getD (i + 1) 0
          = (calculate_portfolio_metrics ((fun _ => [1]) i) [[1]]).1 ∧
        (simulate_portfolios 0 0 (fun _ => [1]) [[1]] 1).2.1.getD (i + 1) 0
          = (calculate_portfolio_metrics ((fun _ => [1]) i) [[1]]).2 ∧
        (simulate_portfolios 0 0 (fun _ => [1]) [[1]] 1).2.2.getD i []
          = (fun _ => [1]) i :=
  simulate_portfolios_population 0 0 (fun _ => [1]) [[1]] 1 (by decide)

/-! ## Absence of input validation in the estimator -/

/-- C4 counterexample: `calculate_returns_and_risk` contains no input
validation and raises nothing: on the all-negative price series
`[-1, -2]` — which the claim says must fail with an error — it
successfully returns the ordinary value `(1/2, 0)`. (For a series
shorter than 2 points or one containing zeros, the numpy operations
likewise emit `nan`/`inf` values with warnings instead of raising.) -/
theorem calculate_returns_and_risk_on_negative_prices :
    calculate_returns_and_risk [-1, -2] = (1 / 2, 0) := by
  have h : dailyReturns [-1, -2] = [1 / 2] := by
    norm_num [dailyReturns, np_diff]
  unfold calculate_returns_and_risk np_std
  rw [h]
  have h1 : np_average [1 / 2] = 1 / 2 := by norm_num [np_average]
  have h2 : np_var [(1 : ℚ) / 2] = 0 := by norm_num [np_var, np_average]
  rw [h1, h2]
  norm_num

/-- C4 amended: `calculate_returns_and_risk` never fails on a series of
length ≥ 2 whose prices are all negative (an input the claim says must
fail): it simply computes the usual mean and population standard
deviation of the later-price-denominator returns, regardless of sign. -/
theorem calculate_returns_and_risk_no_validation (p : List ℚ) (hlen : 2 ≤ p.length)
    (hneg : ∀ x ∈ p, x < 0) :
    calculate_returns_and_risk p =
      (specMean (specReturns p), specPopStd (specReturns p)) := by
  unfold calculate_returns_and_risk np_std specPopStd
  rw [dailyReturns_eq_specReturns, np_average_eq_specMean, np_var_eq_specPopVar]

theorem calculate_returns_and_risk_no_validation_witness :
    (2 ≤ ([-1, -2] : List ℚ).length ∧ ∀ x ∈ ([-1, -2] : List ℚ), x < 0) ∧
      calculate_returns_and_risk [-1, -2] =
        (specMean (specReturns [-1, -2]), specPopStd (specReturns [-1, -2])) :=
  ⟨⟨by decide, by norm_num⟩,
    calculate_returns_and_risk_no_validation [-1, -2] (by decide) (by norm_num)⟩
